import Mathlib

/-!
Verification of the Chatterbox mail poller (`src/pollGmail.js`).

The development shallowly embeds the core of the poller:

* the subject-line classifier built on the regular expression
  `^chatterbox\s*(?::\s*(<uuid>))?\s*(.*)$` with the `i` flag
  (`pollGmail.js:473-514`) together with conversation-id minting
  (`pollGmail.js:517-519`),
* the turn-directory numbering of the conversation materializer
  (`pollGmail.js:527-543`),
* the message-part walker `processMessageParts` (`pollGmail.js:257-314`),
* one poll cycle of `fetchNewEmails` (`pollGmail.js:383-670`): baseline
  handling, history flattening, cursor maximisation, counter updates and
  the error paths.

JavaScript semantics that matter here and are mirrored faithfully:
strings compare lexicographically by code unit under `<`/`>`; the regex
classes `\s` and `\d` denote the JS whitespace set and `[0-9]`; `.`
does not match line terminators and `$` (no `m` flag) only matches at
the very end of the input; `padStart` never truncates; `if (x)` tests
JS truthiness, so the empty string is rejected wherever the source
tests a string with `if`.
-/

set_option maxRecDepth 10000

namespace Chatterbox

/-! ### Character classes of the subject regex (JS semantics) -/

/-- The JS regex class `\s`: whitespace and line terminators
(`[\t\n\v\f\r    -     　﻿]`).
This is also the set removed by `String.prototype.trim`. -/
def jsSpace (c : Char) : Bool :=
  let n := c.toNat
  n = 9 || n = 10 || n = 11 || n = 12 || n = 13 || n = 32 ||
  n = 160 || n = 5760 || (8192 ≤ n && n ≤ 8202) || n = 8232 ||
  n = 8233 || n = 8239 || n = 8287 || n = 12288 || n = 65279

/-- JS line terminators: `\n`, `\r`, ` `, ` `.  The regex `.`
matches every character except these. -/
def isLineTerminator (c : Char) : Bool :=
  let n := c.toNat
  n = 10 || n = 13 || n = 8232 || n = 8233

/-- The regex class `[0-9a-fA-F]` used by the uuid pattern. -/
def isHexDigitChar (c : Char) : Bool :=
  let n := c.toNat
  (48 ≤ n && n ≤ 57) || (97 ≤ n && n ≤ 102) || (65 ≤ n && n ≤ 70)

/-- The regex class `\d`, i.e. `[0-9]`. -/
def isAsciiDigit (c : Char) : Bool :=
  48 ≤ c.toNat && c.toNat ≤ 57

/-- ASCII lower-casing, the case folding the `i` flag applies to the
ASCII-only literal `chatterbox`. -/
def asciiLower (c : Char) : Char :=
  if 65 ≤ c.toNat && c.toNat ≤ 90 then Char.ofNat (c.toNat + 32) else c

/-! ### Matching the literal tag keyword -/

/-- Match a literal keyword case-insensitively at the start of the
input; return the rest of the input on success.  This is the
`^chatterbox` part of the subject regex under the `i` flag. -/
def matchKeyword : List Char → List Char → Option (List Char)
  | [], cs => some cs
  | _ :: _, [] => none
  | k :: ks, c :: cs => if asciiLower c = k then matchKeyword ks cs else none

/-- The tag keyword of the subject grammar. -/
def keywordChars : List Char := "chatterbox".data

/-! ### The uuid group of the subject regex

The group is `([0-9a-fA-F]{8}-[0-9a-fA-F]{4}-[0-9a-fA-F]{4}-[0-9a-fA-F]{4}-[0-9a-fA-F]{12})`.
Each `{n}` is an exact repetition count, so the group parses
deterministically from the front of the input. -/

/-- Consume exactly `n` hex digits from the front of the input,
returning them and the rest. -/
def takeHex : Nat → List Char → Option (List Char × List Char)
  | 0, cs => some ([], cs)
  | _ + 1, [] => none
  | n + 1, c :: cs =>
    if isHexDigitChar c then
      match takeHex n cs with
      | some (v, rest) => some (c :: v, rest)
      | none => none
    else none

/-- Consume one literal character from the front of the input. -/
def takeLit (ch : Char) : List Char → Option (List Char)
  | [] => none
  | c :: cs => if c = ch then some cs else none

/-- Parse the hyphenated canonical uuid pattern from the front of the
input, returning the 36 matched characters (the regex capture) and the
rest of the input. -/
def parseUuid (l : List Char) : Option (List Char × List Char) :=
  match takeHex 8 l with
  | none => none
  | some (a, r1) =>
    match takeLit '-' r1 with
    | none => none
    | some r2 =>
      match takeHex 4 r2 with
      | none => none
      | some (b, r3) =>
        match takeLit '-' r3 with
        | none => none
        | some r4 =>
          match takeHex 4 r4 with
          | none => none
          | some (c, r5) =>
            match takeLit '-' r5 with
            | none => none
            | some r6 =>
              match takeHex 4 r6 with
              | none => none
              | some (d, r7) =>
                match takeLit '-' r7 with
                | none => none
                | some r8 =>
                  match takeHex 12 r8 with
                  | none => none
                  | some (e, r9) =>
                    some (a ++ '-' :: b ++ '-' :: c ++ '-' :: d ++ '-' :: e, r9)

/-- Whether a whole string is a canonical hyphenated-hex uuid, i.e. the
uuid pattern matches it exactly. -/
def isCanonicalUuidB (u : String) : Bool :=
  match parseUuid u.data with
  | some (_, []) => true
  | _ => false

/-! ### `String.prototype.trim` -/

/-- JS `trim`: drop `jsSpace` characters from both ends. -/
def jsTrim (l : List Char) : List Char :=
  ((l.dropWhile jsSpace).reverse.dropWhile jsSpace).reverse

/-- `jsTrim` packaged on strings. -/
def jsTrimStr (s : String) : String := String.mk (jsTrim s.data)

/-! ### The subject classifier

`pollGmail.js:507-514`: `subject.match(chatterboxSubjectRegex)` and

```
const isChatterbox = !!match;
conversationId = match[1] || null;
title = (match[2] || '').trim();
```

The regex is `^chatterbox\s*(?::\s*(<uuid>))?\s*(.*)$` (flag `i`).
Backtracking cannot change the outcome: the `\s*` loops can only give
back whitespace, which can satisfy neither the `:` of the group nor a
hex class, and `{n}` counts are exact.  So the match is equivalent to:
skip the keyword, skip whitespace, optionally take `:`+whitespace+uuid,
skip whitespace; the title is the remaining text, and the overall match
succeeds iff that remainder contains no line terminator (since `(.*)$`
must span it without crossing one). -/

/-- The outcome of the subject-parsing block: `isChatterbox`, the
captured explicit conversation id (`match[1] || null`) and the trimmed
title (`(match[2] || '').trim()`).  On a failed match the source leaves
`conversationId = null` and `title = ''`. -/
structure ClassifyResult where
  isChatterbox : Bool
  conversationId : Option String
  title : String
deriving DecidableEq, Repr

/-- The optional id group of the regex, attempted at the position after
the keyword and the first whitespace run: it matches when a colon is
followed by (whitespace and) the uuid pattern. -/
def tryIdGroup : List Char → Option (List Char × List Char)
  | ':' :: r => parseUuid (r.dropWhile jsSpace)
  | _ => none

/-- Classifier on character lists. -/
def classifyL (cs : List Char) : ClassifyResult :=
  match matchKeyword keywordChars cs with
  | none => ⟨false, none, ""⟩
  | some rest =>
    let afterWs := rest.dropWhile jsSpace
    match tryIdGroup afterWs with
    | some (u, rem) =>
      let t := rem.dropWhile jsSpace
      if t.any isLineTerminator then ⟨false, none, ""⟩
      else ⟨true, some (String.mk u), String.mk (jsTrim t)⟩
    | none =>
      if afterWs.any isLineTerminator then ⟨false, none, ""⟩
      else ⟨true, none, String.mk (jsTrim afterWs)⟩

/-- The subject classifier of `pollGmail.js:473-514`. -/
def classify (subject : String) : ClassifyResult := classifyL subject.data

/-- Conversation-id minting for tagged messages without an explicit id
(`pollGmail.js:518`): `crypto.randomUUID()` with every hyphen replaced
by the empty string, modelled as a function of the canonical uuid the
generator produced. -/
def mintConversationId (u : String) : String :=
  String.mk (u.data.filter (fun c => !(c = '-')))

example : classify "chatterbox: 11111111-2222-3333-4444-555555555555 Design Review" =
    ⟨true, some "11111111-2222-3333-4444-555555555555", "Design Review"⟩ := by decide

example : classify "chatterbox hello world" = ⟨true, none, "hello world"⟩ := by decide

example : classify "Re: something" = ⟨false, none, ""⟩ := by decide

example : classify "chatterbox a\nb" = ⟨false, none, ""⟩ := by decide

example : mintConversationId "11111111-2222-3333-4444-555555555555" =
    "11111111222233334444555555555555" := by decide

/-! ### Turn-directory numbering of the conversation materializer

`pollGmail.js:527-543`.  The conversation directory is created with
`mkdir { recursive: true }` (no error when it already exists), the
immediate subdirectories are scanned for names matching `/^\d{3}$/`,
and the next turn directory is named
`(max + 1).toString().padStart(3, '0')`, or `001` when no numbered
subdirectory exists. -/

/-- `Number.prototype.toString` in base 10 for a natural number. -/
def decRepr (n : Nat) : String := String.mk (Nat.toDigits 10 n)

/-- `String.prototype.padStart(3, '0')`: pad on the left with zeros up
to length 3; longer strings are returned unchanged (never truncated). -/
def padStart3 (s : String) : String :=
  if 3 ≤ s.data.length then s
  else String.mk (List.replicate (3 - s.data.length) '0' ++ s.data)

/-- Shorthand for the zero-padded decimal name of a turn number. -/
def pad3 (m : Nat) : String := padStart3 (decRepr m)

/-- The scan filter `/^\d{3}$/.test(dirent.name)`: exactly three
ASCII digits. -/
def isThreeDigitName (s : String) : Bool :=
  s.data.length = 3 && s.data.all isAsciiDigit

/-- `parseInt(name, 10)` on a name that passed the three-digit filter:
the decimal value of the digits. -/
def parseIntDec (s : String) : Nat :=
  s.data.foldl (fun a c => a * 10 + (c.toNat - 48)) 0

/-- The next turn-directory name computed from the existing immediate
subdirectory names (`pollGmail.js:527-537`).  `Math.max(...ns)` over a
non-empty list of naturals is the fold of `Nat.max` from `0`. -/
def nextSequenceNumber (existing : List String) : String :=
  let numbered := (existing.filter isThreeDigitName).map parseIntDec
  if numbered.isEmpty then "001"
  else padStart3 (decRepr (numbered.foldl Nat.max 0 + 1))

/-- One materialization into a conversation: compute the next turn name
and create that directory.  `fs.mkdir` with `recursive: true` does not
fail when the directory already exists, so an existing name is reused
silently.  The state is the list of directory names (only directories
are ever created under a conversation by the materializer). -/
def matStep (dirs : List String) : List String :=
  let n := nextSequenceNumber dirs
  if n ∈ dirs then dirs else dirs ++ [n]

/-- The conversation directory contents after `n` successive
materializations, starting from an empty conversation. -/
def matIter : Nat → List String
  | 0 => []
  | n + 1 => matStep (matIter n)

example : matIter 3 = ["001", "002", "003"] := by decide

example : nextSequenceNumber ["001", "007", "junk", "02"] = "008" := by decide

/-! ### One poll cycle of `fetchNewEmails`

`pollGmail.js:383-670`, with the remote collaborators abstracted as an
environment:

* `baselineHistoryId` — what `users.getProfile` reports
  (`profileRes.data.historyId`),
* `changes` — the outcome of `users.history.list`,
* `getMessage` — `users.messages.get` per message id (`none` models a
  per-message fetch error, which the source catches and skips).

A message is summarised by its subject and by whether all of its disk
writes (turn directory creation, body write, attachment writes that the
source does not itself swallow) succeed; a thrown write error is caught
by the per-message `catch` at `pollGmail.js:630` and the loop continues.
The persisted state is the pair of key-value files
(`last_history_id.txt`, `total_poll_cycles.txt`).  `writeLastHistoryId`
is skipped when the value is unchanged (`pollGmail.js:651`), which is
observationally the same as writing the unchanged value back. -/

/-- One entry of `res.data.history`: an optional change-sequence id and
the ids of the messages added in this record.  A JS-absent or empty
`id` is falsy and is skipped by the maximisation. -/
structure HistoryRecord where
  id : Option String
  messagesAdded : List String
deriving DecidableEq, Repr

/-- The outcome of `users.history.list`. -/
inductive ChangesResponse where
  | ok (history : List HistoryRecord)
  | invalidCursor
  | transientError
deriving DecidableEq, Repr

/-- What the model needs of one fetched message. -/
structure GmailMsg where
  subject : String
  materializeOk : Bool
deriving DecidableEq, Repr

/-- The remote environment of one poll cycle. -/
structure PollEnv where
  baselineHistoryId : String
  changes : ChangesResponse
  getMessage : String → Option GmailMsg

/-- The persisted state files: the cursor (`last_history_id.txt`,
sentinel `"0"`) and the poll-cycle counter (`total_poll_cycles.txt`). -/
structure PollState where
  lastHistoryId : String
  totalPollCycles : Nat
deriving DecidableEq, Repr

/-- How the cycle ended; distinguishes the observable paths of
`fetchNewEmails` (log lines and early returns). -/
inductive CycleOutcome where
  | baselineSet
  | noChanges
  | processedBatch
  | invalidCursor
  | fetchError
deriving DecidableEq, Repr

/-- The observable result of one poll cycle. -/
structure CycleResult where
  state : PollState
  outcome : CycleOutcome
  listedChanges : Bool
  processedMessages : List String
  failedMaterializations : List String
deriving DecidableEq, Repr

/-- JS `<` on strings: lexicographic comparison by code unit.  (All
history ids are ASCII digit strings, where code-unit order and scalar
order agree.) -/
def jsLtChars : List Char → List Char → Bool
  | [], [] => false
  | [], _ :: _ => true
  | _ :: _, [] => false
  | a :: as, b :: bs =>
    if a.toNat < b.toNat then true
    else if b.toNat < a.toNat then false
    else jsLtChars as bs

/-- JS string comparison packaged on strings. -/
def jsStrLt (a b : String) : Bool := jsLtChars a.data b.data

/-- The `history.forEach` flattening of added message ids
(`pollGmail.js:443-448`). -/
def flattenAdded (history : List HistoryRecord) : List String :=
  history.foldl (fun acc h => acc ++ h.messagesAdded) []

/-- The `history.forEach` maximisation of the cursor
(`pollGmail.js:450-452`): `if (h.id && h.id > maxHistoryId)
maxHistoryId = h.id`, seeded with the stored cursor. -/
def maxHistoryIdOf (lastHistoryId : String) (history : List HistoryRecord) : String :=
  history.foldl
    (fun m h =>
      match h.id with
      | some i => if !(i = "") && jsStrLt m i then i else m
      | none => m)
    lastHistoryId

/-- The counter pre-adjustment of `pollGmail.js:395-400`: bump a zero
persisted count to 1, then catch it up to the in-run cycle count. -/
def adjustedCycles (runPollingCycleCount t0 : Nat) : Nat :=
  let t1 := if t0 = 0 then 1 else t0
  if t1 < runPollingCycleCount then runPollingCycleCount else t1

/-- One run of `fetchNewEmails(auth, runPollingCycleCount)` starting
from persisted state `st`.  Mirrors `pollGmail.js:383-670`:

* counter pre-adjustment (`pollGmail.js:395-400`),
* the sentinel/baseline early return (`pollGmail.js:407-420`),
* the two `0 messages` early returns (`pollGmail.js:431-438`,
  `455-462`), which bump the counter but never touch the cursor,
* the processing path, which iterates all message ids, catches
  per-message errors (`pollGmail.js:630-632`), then persists the
  maximised cursor and the bumped counter regardless of per-message
  failures (`pollGmail.js:650-659`),
* the outer `catch` (`pollGmail.js:661-669`): an invalid-cursor error
  resets the cursor file to the sentinel and leaves the counter file
  untouched; any other fetch error leaves both files untouched. -/
def fetchNewEmails (env : PollEnv) (runPollingCycleCount : Nat) (st : PollState) :
    CycleResult :=
  let t0 := st.totalPollCycles
  let t2 := adjustedCycles runPollingCycleCount t0
  if st.lastHistoryId = "0" then
    ⟨⟨env.baselineHistoryId, t2⟩, .baselineSet, false, [], []⟩
  else
    match env.changes with
    | .invalidCursor => ⟨⟨"0", t0⟩, .invalidCursor, true, [], []⟩
    | .transientError => ⟨st, .fetchError, true, [], []⟩
    | .ok history =>
      if history.isEmpty then
        ⟨⟨st.lastHistoryId, t2 + 1⟩, .noChanges, true, [], []⟩
      else
        let newMessages := flattenAdded history
        let maxHistoryId := maxHistoryIdOf st.lastHistoryId history
        if newMessages.isEmpty then
          ⟨⟨st.lastHistoryId, t2 + 1⟩, .noChanges, true, [], []⟩
        else
          let failed := newMessages.filter fun mid =>
            match env.getMessage mid with
            | some msg => (classify msg.subject).isChatterbox && !msg.materializeOk
            | none => false
          ⟨⟨maxHistoryId, t2 + 1⟩, .processedBatch, true, newMessages, failed⟩

example :
    (fetchNewEmails ⟨"777", .ok [⟨some "5", ["m1"]⟩], fun _ => none⟩ 1 ⟨"0", 0⟩).state =
      ⟨"777", 1⟩ := by decide

/-! ### The message-part walker `processMessageParts`

`pollGmail.js:257-314`.  The part tree is embedded as a mutual
inductive (a part and a forest of sibling parts) so that the walker is
structurally recursive.  A JS part object may lack the `parts` field;
recursing into an empty forest returns the neutral result, so an absent
field and a present empty array are observationally identical and both
are embedded as the empty forest.  Inline `body.data` carries the
decoded payload of the part (the source decodes base64 on the spot);
`attachmentId` payloads are fetched through the environment, `none`
modelling the fetch error that the source catches at
`pollGmail.js:286-289` — its `continue` skips the rest of the loop body
for that part, including the recursion into its children. -/

/-- The `body` field of a part: optional inline payload and optional
out-of-band attachment reference. -/
structure PartBody where
  data : Option String
  attachmentId : Option String
deriving DecidableEq, Repr

mutual
/-- One message part: MIME type, optional filename, optional body,
child parts. -/
inductive Part where
  | mk (mimeType : String) (filename : Option String) (body : Option PartBody)
      (children : PartForest)

/-- A list of sibling parts. -/
inductive PartForest where
  | nil
  | cons (p : Part) (rest : PartForest)
end

/-- The result of the walker: the body content found (if any) and the
enumerated attachments as (filename, byte size) in push order. -/
structure PartsResult where
  prompt : Option String
  attachments : List (String × Nat)
deriving DecidableEq, Repr

/-- `if (x) bodyContent = x`: the later candidate overrides the earlier
one unless it is JS-falsy (absent or empty). -/
def overrideTruthy (later earlier : Option String) : Option String :=
  match later with
  | some q => if q = "" then earlier else some q
  | none => earlier

/-- Outcome of the attachment handling for one part. -/
inductive AttOutcome where
  | noAttachment
  | got (filename : String) (size : Nat)
  | fetchFailed
deriving DecidableEq, Repr

/-- The attachment block of the loop body (`pollGmail.js:270-304`):
guarded by `part.filename && part.body`; inline data wins over the
out-of-band reference; a failed out-of-band fetch `continue`s. -/
def attachmentOf (fetchAtt : String → Option String) (filename : Option String)
    (body : Option PartBody) : AttOutcome :=
  match filename, body with
  | some f, some b =>
    if f = "" then .noAttachment
    else
      match b.data with
      | some d =>
        if d = "" then
          match b.attachmentId with
          | some aid =>
            match fetchAtt aid with
            | some bytes => .got f bytes.length
            | none => .fetchFailed
          | none => .noAttachment
        else .got f d.length
      | none =>
        match b.attachmentId with
        | some aid =>
          match fetchAtt aid with
          | some bytes => .got f bytes.length
          | none => .fetchFailed
        | none => .noAttachment
  | _, _ => .noAttachment

/-- The direct body-content match of the loop body
(`pollGmail.js:265-267`): `part.mimeType === mimeType && part.body &&
part.body.data`, yielding the (decoded) payload. -/
def directBody (mimeType : String) (m : String) (body : Option PartBody) :
    Option String :=
  if m = mimeType then
    match body with
    | some b =>
      match b.data with
      | some d => if d = "" then none else some d
      | none => none
    | none => none
  else none

mutual
/-- The loop body of `processMessageParts` for one part: direct body
match, attachment handling, then recursion into the children (skipped
when an out-of-band attachment fetch failed, because of the
`continue`). -/
def processPart (fetchAtt : String → Option String) (mimeType : String) :
    Part → PartsResult
  | .mk m fn body children =>
    let direct : Option String := directBody mimeType m body
    match attachmentOf fetchAtt fn body with
    | .fetchFailed => ⟨direct, []⟩
    | .noAttachment =>
      let nested := processForest fetchAtt mimeType children
      ⟨overrideTruthy nested.prompt direct, nested.attachments⟩
    | .got f sz =>
      let nested := processForest fetchAtt mimeType children
      ⟨overrideTruthy nested.prompt direct, (f, sz) :: nested.attachments⟩

/-- `processMessageParts(parts, mimeType, ...)` over a sibling list:
the accumulator threads left to right, so a later sibling's find
overrides an earlier one. -/
def processForest (fetchAtt : String → Option String) (mimeType : String) :
    PartForest → PartsResult
  | .nil => ⟨none, []⟩
  | .cons p rest =>
    let first := processPart fetchAtt mimeType p
    let later := processForest fetchAtt mimeType rest
    ⟨overrideTruthy later.prompt first.prompt, first.attachments ++ later.attachments⟩
end

mutual
/-- The direct body candidate of a part, followed (unless the part was
skipped by a failed attachment fetch) by the candidates of its
children.  Used only to state what the walker returns. -/
def bodyMatchesPart (fetchAtt : String → Option String) (mimeType : String) :
    Part → List String
  | .mk m fn body children =>
    match attachmentOf fetchAtt fn body with
    | .fetchFailed => (directBody mimeType m body).toList
    | _ => (directBody mimeType m body).toList ++ bodyMatchesForest fetchAtt mimeType children

/-- The body candidates of a forest in source-traversal order: for each
part, its own direct match first, then its children's candidates;
siblings left to right. -/
def bodyMatchesForest (fetchAtt : String → Option String) (mimeType : String) :
    PartForest → List String
  | .nil => []
  | .cons p rest =>
    bodyMatchesPart fetchAtt mimeType p ++ bodyMatchesForest fetchAtt mimeType rest
end

example :
    (processForest (fun _ => none) "text/plain"
      (.cons (.mk "text/plain" none (some ⟨some "top", none⟩) .nil)
        (.cons (.mk "multipart/mixed" none none
          (.cons (.mk "text/plain" none (some ⟨some "deep", none⟩) .nil) .nil)) .nil))).prompt
      = some "deep" := by decide

/-! ### Auxiliary definitions used only to state theorems -/

/-- The non-falsy change-sequence ids of a history batch, in order. -/
def truthyIds (history : List HistoryRecord) : List String :=
  (history.filterMap HistoryRecord.id).filter (fun i => !(i = ""))

/-- The new cursor as the spec words it: the maximum change-sequence id
observed, defaulting to the input cursor.  Change-sequence ids are
numeric, so maximum means maximum by decimal value.  This definition
follows the spec's words, to be compared with the source's
`maxHistoryIdOf`. -/
def specMaxChangeSequenceId (input : String) (history : List HistoryRecord) : String :=
  history.foldl
    (fun m h =>
      match h.id with
      | some i => if !(i = "") && parseIntDec m < parseIntDec i then i else m
      | none => m)
    input

/-- Whether a subject begins with the tag keyword (case-insensitively):
the only way the anchored subject regex can match at all. -/
def startsWithKeywordB (s : String) : Bool :=
  (matchKeyword keywordChars s.data).isSome

/-- Whether a title-side remainder begins (after whitespace) with a
colon followed by (whitespace and) a canonical uuid — i.e. whether the
optional id group of the subject regex would capture from it. -/
def hasIdGroupB (t : String) : Bool :=
  (tryIdGroup (t.data.dropWhile jsSpace)).isSome

/-- Whether a string is a spelling of the tag keyword up to ASCII
case — exactly the spellings the `i` flag lets the literal
`chatterbox` match. -/
def isKeywordCasedB (kw : String) : Bool :=
  kw.data.map asciiLower = keywordChars

/-! ## Lemmas about the JS string order -/

/-- `jsLtChars` is irreflexive. -/
theorem jsLtChars_irrefl (l : List Char) : jsLtChars l l = false := by
  induction l with
  | nil => rfl
  | cons a as ih => simp [jsLtChars, ih]

/-- `jsLtChars` is transitive. -/
theorem jsLtChars_trans {a b c : List Char} (h1 : jsLtChars a b = true)
    (h2 : jsLtChars b c = true) : jsLtChars a c = true := by
  induction a generalizing b c with
  | nil =>
    cases b with
    | nil => simp [jsLtChars] at h1
    | cons y ys =>
      cases c with
      | nil => simp [jsLtChars] at h2
      | cons z zs => simp [jsLtChars]
  | cons x xs ih =>
    cases b with
    | nil => simp [jsLtChars] at h1
    | cons y ys =>
      cases c with
      | nil => simp [jsLtChars] at h2
      | cons z zs =>
        simp only [jsLtChars] at h1 h2 ⊢
        split_ifs at h1 h2 ⊢ with hxy hyx hyz hzy hxz hzx <;>
          first
            | rfl
            | omega
            | (exact ih h1 h2)

/-- From `m < b` and `¬ a < b` (so `b ≤ a`) conclude `m < a`. -/
theorem jsLtChars_lt_of_lt_of_not_lt {m b a : List Char}
    (h1 : jsLtChars m b = true) (h2 : jsLtChars a b = false) :
    jsLtChars m a = true := by
  induction m generalizing b a with
  | nil =>
    cases b with
    | nil => simp [jsLtChars] at h1
    | cons y ys =>
      cases a with
      | nil => simp [jsLtChars] at h2
      | cons z zs => simp [jsLtChars]
  | cons x xs ih =>
    cases b with
    | nil => simp [jsLtChars] at h1
    | cons y ys =>
      cases a with
      | nil => simp [jsLtChars] at h2
      | cons z zs =>
        simp only [jsLtChars] at h1 h2 ⊢
        split_ifs at h1 h2 ⊢ with h h' h'' <;>
          first
            | rfl
            | omega
            | (exact ih h1 h2)

/-- The fold of `pollGmail.js:450-452` yields an element of the seed
and the truthy ids that no observed truthy id (nor the seed) exceeds in
JS string order: the maximum with respect to `jsStrLt`. -/
theorem maxHistoryIdOf_spec (seed : String) (history : List HistoryRecord) :
    maxHistoryIdOf seed history ∈ seed :: truthyIds history ∧
    jsStrLt (maxHistoryIdOf seed history) seed = false ∧
    ∀ i ∈ truthyIds history, jsStrLt (maxHistoryIdOf seed history) i = false := by
  induction history generalizing seed with
  | nil =>
    refine ⟨List.mem_cons_self _ _, ?_, ?_⟩
    · exact jsLtChars_irrefl seed.data
    · intro i hi; simp [truthyIds] at hi
  | cons h hs ih =>
    have hcons : maxHistoryIdOf seed (h :: hs) =
        maxHistoryIdOf
          (match h.id with
           | some i => if !(i = "") && jsStrLt seed i then i else seed
           | none => seed) hs := rfl
    rcases hid : h.id with _ | i
    · have e1 : maxHistoryIdOf seed (h :: hs) = maxHistoryIdOf seed hs := by
        rw [hcons, hid]
      have hids : truthyIds (h :: hs) = truthyIds hs := by
        simp [truthyIds, List.filterMap_cons, hid]
      rw [e1, hids]
      exact ih seed
    · by_cases hemp : i = ""
      · subst hemp
        have e1 : maxHistoryIdOf seed (h :: hs) = maxHistoryIdOf seed hs := by
          rw [hcons, hid]; simp
        have hids : truthyIds (h :: hs) = truthyIds hs := by
          simp [truthyIds, List.filterMap_cons, hid]
        rw [e1, hids]
        exact ih seed
      · have hids : truthyIds (h :: hs) = i :: truthyIds hs := by
          simp [truthyIds, List.filterMap_cons, hid, hemp]
        by_cases hlt : jsStrLt seed i = true
        · have e1 : maxHistoryIdOf seed (h :: hs) = maxHistoryIdOf i hs := by
            rw [hcons, hid]; simp [hemp, hlt]
          rw [e1, hids]
          obtain ⟨m1, m2, m3⟩ := ih i
          refine ⟨?_, ?_, ?_⟩
          · rcases List.mem_cons.mp m1 with hm | hm
            · rw [hm]; exact List.mem_cons_of_mem _ (List.mem_cons_self _ _)
            · exact List.mem_cons_of_mem _ (List.mem_cons_of_mem _ hm)
          · cases hms : jsStrLt (maxHistoryIdOf i hs) seed with
            | false => rfl
            | true =>
              exfalso
              have h2 : jsStrLt (maxHistoryIdOf i hs) i = true := jsLtChars_trans hms hlt
              rw [m2] at h2
              exact Bool.false_ne_true h2
          · intro j hj
            rcases List.mem_cons.mp hj with hji | hj'
            · rw [hji]; exact m2
            · exact m3 j hj'
        · have hlt' : jsStrLt seed i = false := Bool.eq_false_iff.mpr hlt
          have e1 : maxHistoryIdOf seed (h :: hs) = maxHistoryIdOf seed hs := by
            rw [hcons, hid]; simp [hlt']
          rw [e1, hids]
          obtain ⟨m1, m2, m3⟩ := ih seed
          refine ⟨?_, m2, ?_⟩
          · rcases List.mem_cons.mp m1 with hm | hm
            · rw [hm]; exact List.mem_cons_self _ _
            · exact List.mem_cons_of_mem _ (List.mem_cons_of_mem _ hm)
          · intro j hj
            rcases List.mem_cons.mp hj with hji | hj'
            · rw [hji]
              cases hv : jsStrLt (maxHistoryIdOf seed hs) i with
              | false => rfl
              | true =>
                exfalso
                have h2 : jsStrLt (maxHistoryIdOf seed hs) seed = true :=
                  jsLtChars_lt_of_lt_of_not_lt hv hlt'
                rw [m2] at h2
                exact Bool.false_ne_true h2
            · exact m3 j hj'

/-! ## Claim C3 — baseline behaviour of the sentinel cursor -/

/-- C3: for every run where the stored cursor equals the sentinel "0",
the fetch step performs no change-list request and processes zero
messages: it obtains the provider's current baseline cursor, persists
it as the new cursor, and returns an empty message list
(`pollGmail.js:407-419`). -/
theorem baseline_cycle_fetches_nothing (env : PollEnv) (rc : Nat) (st : PollState)
    (h : st.lastHistoryId = "0") :
    (fetchNewEmails env rc st).listedChanges = false ∧
    (fetchNewEmails env rc st).processedMessages = [] ∧
    (fetchNewEmails env rc st).state.lastHistoryId = env.baselineHistoryId ∧
    (fetchNewEmails env rc st).outcome = .baselineSet := by
  simp [fetchNewEmails, h]

/-- Witness for C3 at a concrete never-synced state. -/
theorem baseline_cycle_fetches_nothing_witness :
    (fetchNewEmails ⟨"b42", .ok [], fun _ => none⟩ 1 ⟨"0", 0⟩).listedChanges = false ∧
    (fetchNewEmails ⟨"b42", .ok [], fun _ => none⟩ 1 ⟨"0", 0⟩).processedMessages = [] ∧
    (fetchNewEmails ⟨"b42", .ok [], fun _ => none⟩ 1 ⟨"0", 0⟩).state.lastHistoryId = "b42" ∧
    (fetchNewEmails ⟨"b42", .ok [], fun _ => none⟩ 1 ⟨"0", 0⟩).outcome = .baselineSet :=
  baseline_cycle_fetches_nothing ⟨"b42", .ok [], fun _ => none⟩ 1 ⟨"0", 0⟩ rfl

/-! ## Claim C7 — invalid-cursor resync -/

/-- C7: whenever the provider rejects the stored cursor, the cycle
resets the stored cursor to the sentinel and surfaces a distinguished
outcome (not the silent "0 changes" outcome); the next cycle then
performs a fresh baseline: it issues no change-list request, processes
zero messages and persists the provider's baseline cursor — the full
mailbox history is never replayed (`pollGmail.js:661-668` and
`407-419`). -/
theorem invalid_cursor_triggers_baseline_resync (env1 env2 : PollEnv) (rc1 rc2 : Nat)
    (st : PollState) (h0 : ¬ st.lastHistoryId = "0")
    (h1 : env1.changes = .invalidCursor) :
    (fetchNewEmails env1 rc1 st).state.lastHistoryId = "0" ∧
    (fetchNewEmails env1 rc1 st).outcome = .invalidCursor ∧
    (fetchNewEmails env1 rc1 st).outcome ≠ .noChanges ∧
    (fetchNewEmails env2 rc2 (fetchNewEmails env1 rc1 st).state).listedChanges = false ∧
    (fetchNewEmails env2 rc2 (fetchNewEmails env1 rc1 st).state).processedMessages = [] ∧
    (fetchNewEmails env2 rc2 (fetchNewEmails env1 rc1 st).state).state.lastHistoryId =
      env2.baselineHistoryId := by
  have e1 : fetchNewEmails env1 rc1 st =
      ⟨⟨"0", st.totalPollCycles⟩, .invalidCursor, true, [], []⟩ := by
    simp [fetchNewEmails, h0, h1]
  rw [e1]
  have e2 := baseline_cycle_fetches_nothing env2 rc2 ⟨"0", st.totalPollCycles⟩ rfl
  exact ⟨rfl, rfl, by simp, e2.1, e2.2.1, e2.2.2.1⟩

/-- Witness for C7 at a concrete state and environments. -/
theorem invalid_cursor_triggers_baseline_resync_witness :
    (fetchNewEmails ⟨"x", .invalidCursor, fun _ => none⟩ 4 ⟨"123", 7⟩).state.lastHistoryId = "0" ∧
    (fetchNewEmails ⟨"x", .invalidCursor, fun _ => none⟩ 4 ⟨"123", 7⟩).outcome = .invalidCursor ∧
    (fetchNewEmails ⟨"x", .invalidCursor, fun _ => none⟩ 4 ⟨"123", 7⟩).outcome ≠ .noChanges ∧
    (fetchNewEmails ⟨"b43", .ok [], fun _ => none⟩ 5
      (fetchNewEmails ⟨"x", .invalidCursor, fun _ => none⟩ 4 ⟨"123", 7⟩).state).listedChanges = false ∧
    (fetchNewEmails ⟨"b43", .ok [], fun _ => none⟩ 5
      (fetchNewEmails ⟨"x", .invalidCursor, fun _ => none⟩ 4 ⟨"123", 7⟩).state).processedMessages = [] ∧
    (fetchNewEmails ⟨"b43", .ok [], fun _ => none⟩ 5
      (fetchNewEmails ⟨"x", .invalidCursor, fun _ => none⟩ 4 ⟨"123", 7⟩).state).state.lastHistoryId = "b43" :=
  invalid_cursor_triggers_baseline_resync ⟨"x", .invalidCursor, fun _ => none⟩
    ⟨"b43", .ok [], fun _ => none⟩ 4 5 ⟨"123", 7⟩ (by decide) rfl

/-! ## Claim C1 — the cursor is persisted past failed materializations

The spec's invariant says the persisted cursor must never advance past
a message whose materialization failed.  The source catches the
per-message error (`pollGmail.js:630-632`) and then persists the
maximised cursor unconditionally (`pollGmail.js:650-654`); §7/§9 of the
spec flag exactly this as the known consistency gap of the reference
behaviour. -/

/-- C1 fails on the code: a cycle in which message `m1` (inside the
change record with sequence id "5") is tagged and its disk writes fail
still persists cursor "7", strictly past "5" in the order the source
uses. -/
theorem cursor_advances_past_failed_materialization :
    (fetchNewEmails
        ⟨"", .ok [⟨some "5", ["m1"]⟩, ⟨some "7", ["m2"]⟩],
          fun mid => if mid = "m1" then some ⟨"chatterbox broken disk", false⟩
                     else some ⟨"chatterbox fine", true⟩⟩
        3 ⟨"1", 5⟩).failedMaterializations = ["m1"] ∧
    (fetchNewEmails
        ⟨"", .ok [⟨some "5", ["m1"]⟩, ⟨some "7", ["m2"]⟩],
          fun mid => if mid = "m1" then some ⟨"chatterbox broken disk", false⟩
                     else some ⟨"chatterbox fine", true⟩⟩
        3 ⟨"1", 5⟩).state.lastHistoryId = "7" ∧
    jsStrLt "5" "7" = true := by decide

/-! ## Claim C6 — the new cursor is a string-order maximum, not a
numeric maximum -/

/-- C6 as stated fails on the code: with stored cursor "5" and change
records with ids "9" and "10", the maximum change-sequence id observed
is 10, but the source's JS string comparison persists "9". -/
theorem cursor_lexicographic_not_numeric_max :
    (fetchNewEmails
        ⟨"", .ok [⟨some "9", ["a"]⟩, ⟨some "10", ["b"]⟩], fun _ => some ⟨"x", true⟩⟩
        1 ⟨"5", 1⟩).state.lastHistoryId = "9" ∧
    specMaxChangeSequenceId "5" [⟨some "9", ["a"]⟩, ⟨some "10", ["b"]⟩] = "10" ∧
    ("9" : String) ≠ "10" := by decide

/-- C6 amended: on a non-baseline cycle whose change-list succeeds, if
the flattened batch contains at least one added message the persisted
cursor is the maximum, with respect to JS lexicographic string
comparison, of the input cursor and all non-empty record ids; if the
batch contains no added message (including the empty-history case) the
cursor file keeps the input cursor. -/
theorem cursor_is_string_order_max (env : PollEnv) (rc : Nat) (st : PollState)
    (history : List HistoryRecord) (h0 : ¬ st.lastHistoryId = "0")
    (h1 : env.changes = .ok history) :
    (flattenAdded history = [] →
      (fetchNewEmails env rc st).state.lastHistoryId = st.lastHistoryId) ∧
    (flattenAdded history ≠ [] →
      ((fetchNewEmails env rc st).state.lastHistoryId ∈
          st.lastHistoryId :: truthyIds history ∧
        jsStrLt (fetchNewEmails env rc st).state.lastHistoryId st.lastHistoryId = false ∧
        ∀ i ∈ truthyIds history,
          jsStrLt (fetchNewEmails env rc st).state.lastHistoryId i = false)) := by
  constructor
  · intro hflat
    by_cases hh : history.isEmpty
    · simp [fetchNewEmails, h0, h1, hh]
    · simp [fetchNewEmails, h0, h1, hh, hflat]
  · intro hflat
    have hh : history.isEmpty = false := by
      cases history with
      | nil => exact absurd rfl hflat
      | cons a l => rfl
    have hflat' : (flattenAdded history).isEmpty = false := by
      cases hfe : flattenAdded history with
      | nil => exact absurd hfe hflat
      | cons a l => rfl
    have e1 : (fetchNewEmails env rc st).state.lastHistoryId =
        maxHistoryIdOf st.lastHistoryId history := by
      simp [fetchNewEmails, h0, h1, hh, hflat']
    rw [e1]
    exact maxHistoryIdOf_spec st.lastHistoryId history

/-- Witness for C6 (amended) at a concrete environment with a
non-empty batch, with every hypothesis discharged. -/
theorem cursor_is_string_order_max_witness :
    (fetchNewEmails ⟨"", .ok [⟨some "9", ["a"]⟩], fun _ => none⟩ 1 ⟨"5", 1⟩).state.lastHistoryId ∈
        "5" :: truthyIds [⟨some "9", ["a"]⟩] ∧
      jsStrLt (fetchNewEmails ⟨"", .ok [⟨some "9", ["a"]⟩], fun _ => none⟩ 1 ⟨"5", 1⟩).state.lastHistoryId "5" = false ∧
      ∀ i ∈ truthyIds [⟨some "9", ["a"]⟩],
        jsStrLt (fetchNewEmails ⟨"", .ok [⟨some "9", ["a"]⟩], fun _ => none⟩ 1 ⟨"5", 1⟩).state.lastHistoryId i = false :=
  (cursor_is_string_order_max ⟨"", .ok [⟨some "9", ["a"]⟩], fun _ => none⟩ 1 ⟨"5", 1⟩
    [⟨some "9", ["a"]⟩] (by decide) rfl).2 (by decide)

/-! ## Claim C9 — the poll-cycle counter -/

/-- C9 as stated fails on the code: starting from fresh state, the
first (baseline) cycle persists counter 1, and the second cycle
persists counter 3 — the counter was incremented twice in one
completed cycle, because of the run-count catch-up at
`pollGmail.js:395-400` combined with the increment at
`pollGmail.js:434` / `657`. -/
theorem poll_counter_double_increment :
    (fetchNewEmails ⟨"1000", .ok [], fun _ => none⟩ 1 ⟨"0", 0⟩).state.totalPollCycles = 1 ∧
    (fetchNewEmails ⟨"1000", .ok [], fun _ => none⟩ 2
        (fetchNewEmails ⟨"1000", .ok [], fun _ => none⟩ 1 ⟨"0", 0⟩).state).state.totalPollCycles = 3 ∧
    (3 : Nat) ≠ 1 + 1 := by decide

/-- C9 amended: the persisted poll-cycle counter never decreases across
cycles (hence across restarts, which only reset the in-run cycle
count), and every completed non-baseline cycle whose change-list
succeeds increases it by at least one — but not always exactly one. -/
theorem poll_counter_monotone (env : PollEnv) (rc : Nat) (st : PollState) :
    st.totalPollCycles ≤ (fetchNewEmails env rc st).state.totalPollCycles ∧
    (¬ st.lastHistoryId = "0" →
      ∀ history, env.changes = .ok history →
        st.totalPollCycles + 1 ≤ (fetchNewEmails env rc st).state.totalPollCycles) := by
  have hadj : st.totalPollCycles ≤ adjustedCycles rc st.totalPollCycles := by
    simp only [adjustedCycles]; split_ifs <;> omega
  by_cases h0 : st.lastHistoryId = "0"
  · have e : (fetchNewEmails env rc st).state.totalPollCycles =
        adjustedCycles rc st.totalPollCycles := by
      simp [fetchNewEmails, h0]
    rw [e]
    exact ⟨hadj, fun h0' => absurd h0 h0'⟩
  · cases hc : env.changes with
    | invalidCursor =>
      have e : (fetchNewEmails env rc st).state.totalPollCycles = st.totalPollCycles := by
        simp [fetchNewEmails, h0, hc]
      rw [e]
      refine ⟨le_refl _, fun _ history hch => ?_⟩
      exact absurd hch (by simp)
    | transientError =>
      have e : (fetchNewEmails env rc st).state.totalPollCycles = st.totalPollCycles := by
        simp [fetchNewEmails, h0, hc]
      rw [e]
      refine ⟨le_refl _, fun _ history hch => ?_⟩
      exact absurd hch (by simp)
    | ok history =>
      have e : (fetchNewEmails env rc st).state.totalPollCycles =
          adjustedCycles rc st.totalPollCycles + 1 := by
        by_cases hh : history.isEmpty
        · simp [fetchNewEmails, h0, hc, hh]
        · by_cases hf : (flattenAdded history).isEmpty
          · simp [fetchNewEmails, h0, hc, hh, hf]
          · simp [fetchNewEmails, h0, hc, hh, hf]
      rw [e]
      exact ⟨le_trans hadj (Nat.le_succ _), fun _ _ _ => Nat.succ_le_succ hadj⟩

/-- Witness for C9 (amended) at a concrete non-baseline cycle, with
every hypothesis discharged. -/
theorem poll_counter_monotone_witness :
    (⟨"5", 3⟩ : PollState).totalPollCycles ≤
      (fetchNewEmails ⟨"", .ok [], fun _ => none⟩ 1 ⟨"5", 3⟩).state.totalPollCycles ∧
    (⟨"5", 3⟩ : PollState).totalPollCycles + 1 ≤
      (fetchNewEmails ⟨"", .ok [], fun _ => none⟩ 1 ⟨"5", 3⟩).state.totalPollCycles :=
  ⟨(poll_counter_monotone ⟨"", .ok [], fun _ => none⟩ 1 ⟨"5", 3⟩).1,
    (poll_counter_monotone ⟨"", .ok [], fun _ => none⟩ 1 ⟨"5", 3⟩).2 (by decide) [] rfl⟩

/-! ## Claim C2 — turn-directory numbering -/

/-- Every turn number below 1000 round-trips through its padded name:
the name passes the three-digit scan and parses back to the number. -/
theorem pad3_roundtrip :
    ∀ m, m < 1000 → (isThreeDigitName (pad3 m) = true ∧ parseIntDec (pad3 m) = m) := by
  decide

/-- The scan filter keeps every padded name of a turn number in
`1..k` for `k ≤ 999`. -/
theorem filter_pads (k : Nat) (hk : k ≤ 999) :
    (List.map pad3 (List.range' 1 k)).filter isThreeDigitName =
      List.map pad3 (List.range' 1 k) := by
  apply List.filter_eq_self.mpr
  intro a ha
  obtain ⟨m, hm, he⟩ := List.mem_map.mp ha
  have hr := List.mem_range'_1.mp hm
  rw [← he]
  exact (pad3_roundtrip m (by omega)).1

/-- Parsing the padded names of `1..k` gives back `1..k` (for
`k ≤ 999`). -/
theorem parse_pads (k : Nat) (hk : k ≤ 999) :
    (List.map pad3 (List.range' 1 k)).map parseIntDec = List.range' 1 k := by
  rw [List.map_map]
  have h : ∀ a ∈ List.range' 1 k, (parseIntDec ∘ pad3) a = id a := by
    intro a ha
    have hr := List.mem_range'_1.mp ha
    exact (pad3_roundtrip a (by omega)).2
  rw [List.map_congr_left h, List.map_id]

/-- Folding `Nat.max` over `1..k` from any seed gives the maximum of
the seed and `k`. -/
theorem foldl_max_range' (k : Nat) :
    ∀ a, (List.range' 1 k).foldl Nat.max a = Nat.max a k := by
  induction k with
  | zero => intro a; simp [Nat.max_def]
  | succ n ih =>
    intro a
    rw [List.range'_1_concat, List.foldl_append, ih a]
    simp only [List.foldl_cons, List.foldl_nil, Nat.max_def]
    split_ifs <;> omega

/-- The next-sequence-number computation on the padded names of
`1..k` yields the padded name of `k + 1` (for `k ≤ 999`). -/
theorem nextSeq_pads (k : Nat) (hk : k ≤ 999) :
    nextSequenceNumber (List.map pad3 (List.range' 1 k)) = pad3 (k + 1) := by
  cases k with
  | zero => decide
  | succ n =>
    unfold nextSequenceNumber
    rw [filter_pads (n + 1) hk, parse_pads (n + 1) hk]
    have hne : (List.range' 1 (n + 1)).isEmpty = false := by
      rw [List.range'_succ]; rfl
    dsimp only
    rw [hne]
    simp only [Bool.false_eq_true, if_false]
    rw [foldl_max_range' (n + 1) 0]
    have hmax : Nat.max 0 (n + 1) = n + 1 := by simp [Nat.max_def]
    rw [hmax]
    rfl

/-- The padded name of `k + 1` is not among the padded names of
`1..k` (for `k + 1 ≤ 999`). -/
theorem pad3_succ_not_mem (k : Nat) (hk : k + 1 ≤ 999) :
    pad3 (k + 1) ∉ List.map pad3 (List.range' 1 k) := by
  intro hm
  obtain ⟨m, hm', he⟩ := List.mem_map.mp hm
  have hr := List.mem_range'_1.mp hm'
  have h1 := (pad3_roundtrip m (by omega)).2
  have h2 := (pad3_roundtrip (k + 1) (by omega)).2
  rw [he] at h1
  omega

/-- After `N ≤ 999` materializations from an empty conversation the
directory names are exactly the padded names of `1..N`. -/
theorem matIter_eq (N : Nat) (hN : N ≤ 999) :
    matIter N = List.map pad3 (List.range' 1 N) := by
  induction N with
  | zero => rfl
  | succ n ih =>
    have hn : n ≤ 999 := by omega
    show matStep (matIter n) = _
    rw [ih hn]
    simp only [matStep]
    rw [nextSeq_pads n hn, if_neg (pad3_succ_not_mem n hN)]
    rw [List.range'_1_concat, List.map_append]
    simp [Nat.add_comm 1 n]

/-- C2 amended: for every `N ≤ 999`, `N` successive materializations
into an initially empty conversation produce exactly the directories
`pad3 1, …, pad3 N` (zero-padded three-digit, contiguous, no gaps), the
names are pairwise distinct, and there are exactly `N` of them; each
new turn number is `max(existing) + 1`, or `001` when none exist.  The
bound is necessary: see the counterexample at `N = 1001`. -/
theorem turn_numbering_contiguous_up_to_999 (N : Nat) (hN : N ≤ 999) :
    matIter N = List.map pad3 (List.range' 1 N) ∧
    (matIter N).Nodup ∧
    (matIter N).length = N := by
  have he := matIter_eq N hN
  refine ⟨he, ?_, ?_⟩
  · rw [he]
    have hparse : (List.map pad3 (List.range' 1 N)).map parseIntDec =
        List.range' 1 N := parse_pads N hN
    have hr : (List.range' 1 N).Nodup := List.nodup_range' 1 N
    have hmapped : ((List.map pad3 (List.range' 1 N)).map parseIntDec).Nodup := by
      rw [hparse]; exact hr
    exact hmapped.of_map
  · rw [he]; simp

/-- Witness for C2 (amended) at `N = 2`: two sequential
materializations produce directories `001` then `002`. -/
theorem turn_numbering_contiguous_up_to_999_witness :
    matIter 2 = List.map pad3 (List.range' 1 2) ∧
    (matIter 2).Nodup ∧
    (matIter 2).length = 2 :=
  turn_numbering_contiguous_up_to_999 2 (by omega)

/-- C2 as stated fails on the code for large `N`: after 999 turns the
next directory is named "1000" (four digits, never matched by the
three-digit scan), so the 1001st materialization computes "1000" again
— a repeated turn number — and after 1001 materializations only 1000
turn directories exist instead of 1001. -/
theorem turn_numbering_fails_after_999 :
    nextSequenceNumber (matIter 1000) = "1000" ∧
    "1000" ∈ matIter 1000 ∧
    (matIter 1001).length = 1000 ∧
    (1000 : Nat) ≠ 1001 := by
  have h999 : matIter 999 = List.map pad3 (List.range' 1 999) :=
    matIter_eq 999 (by omega)
  have hstep : nextSequenceNumber (List.map pad3 (List.range' 1 999)) = "1000" := by
    rw [nextSeq_pads 999 (by omega)]; decide
  have hnotmem : "1000" ∉ List.map pad3 (List.range' 1 999) := by
    intro hm
    obtain ⟨m, hm', he⟩ := List.mem_map.mp hm
    have hr := List.mem_range'_1.mp hm'
    have h1 := (pad3_roundtrip m (by omega)).1
    rw [he] at h1
    exact absurd h1 (by decide)
  have h1000 : matIter 1000 = List.map pad3 (List.range' 1 999) ++ ["1000"] := by
    show matStep (matIter 999) = _
    rw [h999]
    simp only [matStep]
    rw [hstep, if_neg hnotmem]
  have hjunk : nextSequenceNumber (List.map pad3 (List.range' 1 999) ++ ["1000"]) =
      nextSequenceNumber (List.map pad3 (List.range' 1 999)) := by
    unfold nextSequenceNumber
    rw [List.filter_append]
    have hbad : List.filter isThreeDigitName ["1000"] = [] := by decide
    rw [hbad, List.append_nil]
  have hmem2 : "1000" ∈ List.map pad3 (List.range' 1 999) ++ ["1000"] :=
    List.mem_append_right _ (List.mem_cons_self _ _)
  have h1001 : matIter 1001 = matIter 1000 := by
    show matStep (matIter 1000) = _
    rw [h1000]
    simp only [matStep]
    rw [hjunk, hstep, if_pos hmem2]
  refine ⟨?_, ?_, ?_, by omega⟩
  · rw [h1000, hjunk, hstep]
  · rw [h1000]; exact hmem2
  · rw [h1001, h1000]
    simp

/-! ## Lemmas about the subject classifier -/

/-- String concatenation concatenates the character lists. -/
theorem strData_append (a b : String) : (a ++ b).data = a.data ++ b.data := rfl

/-- Packaging the characters of a string back up is the identity. -/
theorem strMk_data (s : String) : String.mk s.data = s := rfl

/-- A string's length is the length of its character list. -/
theorem strLength_data (s : String) : s.length = s.data.length := rfl

/-- The keyword matcher strips any leading spelling of the keyword
that folds to it under ASCII lower-casing. -/
theorem matchKeyword_of_cased {kw : List Char} (h : kw.map asciiLower = keywordChars)
    (r : List Char) : matchKeyword keywordChars (kw ++ r) = some r := by
  rw [← h]
  clear h
  induction kw with
  | nil => rfl
  | cons c cs ih =>
    simp only [List.map_cons, List.cons_append, matchKeyword, if_pos rfl]
    exact ih

/-- The keyword matcher strips a leading literal `chatterbox`, leaving
the colon in the remainder. -/
theorem matchKeyword_chatterboxColon (r : List Char) :
    matchKeyword keywordChars ("chatterbox:".data ++ r) = some (':' :: r) := rfl

/-- Hex digits are not JS whitespace. -/
theorem hex_not_space {c : Char} (h : isHexDigitChar c = true) : jsSpace c = false := by
  simp only [isHexDigitChar, Bool.or_eq_true, Bool.and_eq_true, decide_eq_true_eq] at h
  simp only [jsSpace, Bool.or_eq_true, Bool.and_eq_true, decide_eq_true_eq]
  simp only [Bool.or_eq_false_iff, Bool.and_eq_false_iff, decide_eq_false_iff_not]
  omega

/-- Hex digits are not the hyphen. -/
theorem hex_ne_hyphen {c : Char} (h : isHexDigitChar c = true) : ¬ c = '-' := by
  intro he
  rw [he] at h
  exact absurd h (by decide)

/-- Dropping a prefix twice is dropping it once. -/
theorem dropWhile_idem (p : Char → Bool) (l : List Char) :
    (l.dropWhile p).dropWhile p = l.dropWhile p := by
  induction l with
  | nil => rfl
  | cons a as ih =>
    rw [List.dropWhile_cons]
    split_ifs with h
    · exact ih
    · rw [List.dropWhile_cons, if_neg (by simp [h])]

/-- Trimming after dropping leading whitespace is plain trimming. -/
theorem jsTrim_dropWhile (l : List Char) : jsTrim (l.dropWhile jsSpace) = jsTrim l := by
  unfold jsTrim
  rw [dropWhile_idem]

/-- A predicate false on a list stays false on any `dropWhile` suffix. -/
theorem any_false_dropWhile {p q : Char → Bool} {l : List Char}
    (h : l.any p = false) : (l.dropWhile q).any p = false := by
  cases hv : (l.dropWhile q).any p with
  | false => rfl
  | true =>
    exfalso
    obtain ⟨x, hx, hpx⟩ := List.any_eq_true.mp hv
    have hxl : x ∈ l := (List.dropWhile_sublist q).subset hx
    have := List.any_eq_true.mpr ⟨x, hxl, hpx⟩
    rw [h] at this
    exact Bool.false_ne_true this

/-- Soundness of `takeLit`. -/
theorem takeLit_eq_some {ch : Char} {l r : List Char} (h : takeLit ch l = some r) :
    l = ch :: r := by
  cases l with
  | nil => exact absurd h (by simp [takeLit])
  | cons c cs =>
    by_cases hc : c = ch
    · simp [takeLit, hc] at h
      rw [hc, h]
    · simp [takeLit, hc] at h

/-- `takeLit` is stable under appending input. -/
theorem takeLit_append {ch : Char} {l r : List Char} (h : takeLit ch l = some r)
    (rest : List Char) : takeLit ch (l ++ rest) = some (r ++ rest) := by
  rw [takeLit_eq_some h]
  simp [takeLit]

/-- Soundness of `takeHex`: the consumed prefix has the requested
length, is all hex, and prepends to the remainder. -/
theorem takeHex_sound : ∀ (n : Nat) (l v r : List Char), takeHex n l = some (v, r) →
    l = v ++ r ∧ v.length = n ∧ ∀ c ∈ v, isHexDigitChar c = true := by
  intro n
  induction n with
  | zero =>
    intro l v r h
    have hvr : (([], l) : List Char × List Char) = (v, r) := by
      simpa [takeHex] using h
    cases hvr
    exact ⟨rfl, rfl, by simp⟩
  | succ n ih =>
    intro l v r h
    cases l with
    | nil => exact absurd h (by simp [takeHex])
    | cons c cs =>
      simp only [takeHex] at h
      split_ifs at h with hc
      · cases ht : takeHex n cs with
        | none => rw [ht] at h; cases h
        | some pr =>
          obtain ⟨v', rest⟩ := pr
          rw [ht] at h
          simp only [Option.some.injEq, Prod.mk.injEq] at h
          obtain ⟨hv, hr⟩ := h
          obtain ⟨h1, h2, h3⟩ := ih cs v' rest ht
          subst hv
          subst hr
          refine ⟨by simp [h1], by simp [h2], ?_⟩
          intro x hx
          rcases List.mem_cons.mp hx with h' | h'
          · rw [h']; exact hc
          · exact h3 x h'

/-- `takeHex` is stable under appending input. -/
theorem takeHex_append : ∀ (n : Nat) (l v r : List Char), takeHex n l = some (v, r) →
    ∀ rest, takeHex n (l ++ rest) = some (v, r ++ rest) := by
  intro n
  induction n with
  | zero =>
    intro l v r h rest
    have hvr : (([], l) : List Char × List Char) = (v, r) := by
      simpa [takeHex] using h
    cases hvr
    simp [takeHex]
  | succ n ih =>
    intro l v r h rest
    cases l with
    | nil => exact absurd h (by simp [takeHex])
    | cons c cs =>
      simp only [takeHex] at h
      split_ifs at h with hc
      · cases ht : takeHex n cs with
        | none => rw [ht] at h; cases h
        | some pr =>
          obtain ⟨v', rest'⟩ := pr
          rw [ht] at h
          simp only [Option.some.injEq, Prod.mk.injEq] at h
          obtain ⟨hv, hr⟩ := h
          subst hv
          subst hr
          rw [List.cons_append]
          simp [takeHex, hc, ih cs v' rest' ht rest]

/-- `takeHex` consumes exactly a hex block of its length. -/
theorem takeHex_exact : ∀ (v rest : List Char), (∀ x ∈ v, isHexDigitChar x = true) →
    takeHex v.length (v ++ rest) = some (v, rest) := by
  intro v
  induction v with
  | nil => intro rest _; rfl
  | cons x xs ih =>
    intro rest h
    have hx : isHexDigitChar x = true := h x (List.mem_cons_self _ _)
    rw [List.cons_append]
    simp [takeHex, hx, ih rest (fun y hy => h y (List.mem_cons_of_mem _ hy))]

/-- Soundness of the uuid parser: the capture decomposes into the five
hyphen-separated hex blocks of the canonical form. -/
theorem parseUuid_sound {l v r : List Char} (h : parseUuid l = some (v, r)) :
    l = v ++ r ∧
    ∃ a b c d e : List Char,
      v = a ++ '-' :: b ++ '-' :: c ++ '-' :: d ++ '-' :: e ∧
      a.length = 8 ∧ b.length = 4 ∧ c.length = 4 ∧ d.length = 4 ∧ e.length = 12 ∧
      (∀ x ∈ a, isHexDigitChar x = true) ∧ (∀ x ∈ b, isHexDigitChar x = true) ∧
      (∀ x ∈ c, isHexDigitChar x = true) ∧ (∀ x ∈ d, isHexDigitChar x = true) ∧
      (∀ x ∈ e, isHexDigitChar x = true) := by
  unfold parseUuid at h
  cases h8 : takeHex 8 l with
  | none => rw [h8] at h; cases h
  | some p8 =>
  obtain ⟨a, r1⟩ := p8
  rw [h8] at h
  dsimp only at h
  cases hl1 : takeLit '-' r1 with
  | none => rw [hl1] at h; cases h
  | some r2 =>
  rw [hl1] at h
  dsimp only at h
  cases h4b : takeHex 4 r2 with
  | none => rw [h4b] at h; cases h
  | some pb =>
  obtain ⟨b, r3⟩ := pb
  rw [h4b] at h
  dsimp only at h
  cases hl2 : takeLit '-' r3 with
  | none => rw [hl2] at h; cases h
  | some r4 =>
  rw [hl2] at h
  dsimp only at h
  cases h4c : takeHex 4 r4 with
  | none => rw [h4c] at h; cases h
  | some pc =>
  obtain ⟨c, r5⟩ := pc
  rw [h4c] at h
  dsimp only at h
  cases hl3 : takeLit '-' r5 with
  | none => rw [hl3] at h; cases h
  | some r6 =>
  rw [hl3] at h
  dsimp only at h
  cases h4d : takeHex 4 r6 with
  | none => rw [h4d] at h; cases h
  | some pd =>
  obtain ⟨d, r7⟩ := pd
  rw [h4d] at h
  dsimp only at h
  cases hl4 : takeLit '-' r7 with
  | none => rw [hl4] at h; cases h
  | some r8 =>
  rw [hl4] at h
  dsimp only at h
  cases h12 : takeHex 12 r8 with
  | none => rw [h12] at h; cases h
  | some pe =>
  obtain ⟨e, r9⟩ := pe
  rw [h12] at h
  dsimp only at h
  simp only [Option.some.injEq, Prod.mk.injEq] at h
  obtain ⟨hv, hr⟩ := h
  obtain ⟨ha1, ha2, ha3⟩ := takeHex_sound 8 l a r1 h8
  have hb1 := takeLit_eq_some hl1
  obtain ⟨hc1, hc2, hc3⟩ := takeHex_sound 4 r2 b r3 h4b
  have hd1 := takeLit_eq_some hl2
  obtain ⟨he1, he2, he3⟩ := takeHex_sound 4 r4 c r5 h4c
  have hf1 := takeLit_eq_some hl3
  obtain ⟨hg1, hg2, hg3⟩ := takeHex_sound 4 r6 d r7 h4d
  have hh1 := takeLit_eq_some hl4
  obtain ⟨hi1, hi2, hi3⟩ := takeHex_sound 12 r8 e r9 h12
  subst hv
  subst hr
  constructor
  · rw [ha1, hb1, hc1, hd1, he1, hf1, hg1, hh1, hi1]
    simp [List.append_assoc]
  · exact ⟨a, b, c, d, e, rfl, ha2, hc2, he2, hg2, hi2, ha3, hc3, he3, hg3, hi3⟩

/-- The uuid parser is stable under appending input. -/
theorem parseUuid_append {l v r : List Char} (h : parseUuid l = some (v, r))
    (rest : List Char) : parseUuid (l ++ rest) = some (v, r ++ rest) := by
  unfold parseUuid at h ⊢
  cases h8 : takeHex 8 l with
  | none => rw [h8] at h; cases h
  | some p8 =>
  obtain ⟨a, r1⟩ := p8
  rw [h8] at h
  dsimp only at h
  rw [takeHex_append 8 l a r1 h8 rest]
  dsimp only
  cases hl1 : takeLit '-' r1 with
  | none => rw [hl1] at h; cases h
  | some r2 =>
  rw [hl1] at h
  dsimp only at h
  rw [takeLit_append hl1 rest]
  dsimp only
  cases h4b : takeHex 4 r2 with
  | none => rw [h4b] at h; cases h
  | some pb =>
  obtain ⟨b, r3⟩ := pb
  rw [h4b] at h
  dsimp only at h
  rw [takeHex_append 4 r2 b r3 h4b rest]
  dsimp only
  cases hl2 : takeLit '-' r3 with
  | none => rw [hl2] at h; cases h
  | some r4 =>
  rw [hl2] at h
  dsimp only at h
  rw [takeLit_append hl2 rest]
  dsimp only
  cases h4c : takeHex 4 r4 with
  | none => rw [h4c] at h; cases h
  | some pc =>
  obtain ⟨c, r5⟩ := pc
  rw [h4c] at h
  dsimp only at h
  rw [takeHex_append 4 r4 c r5 h4c rest]
  dsimp only
  cases hl3 : takeLit '-' r5 with
  | none => rw [hl3] at h; cases h
  | some r6 =>
  rw [hl3] at h
  dsimp only at h
  rw [takeLit_append hl3 rest]
  dsimp only
  cases h4d : takeHex 4 r6 with
  | none => rw [h4d] at h; cases h
  | some pd =>
  obtain ⟨d, r7⟩ := pd
  rw [h4d] at h
  dsimp only at h
  rw [takeHex_append 4 r6 d r7 h4d rest]
  dsimp only
  cases hl4 : takeLit '-' r7 with
  | none => rw [hl4] at h; cases h
  | some r8 =>
  rw [hl4] at h
  dsimp only at h
  rw [takeLit_append hl4 rest]
  dsimp only
  cases h12 : takeHex 12 r8 with
  | none => rw [h12] at h; cases h
  | some pe =>
  obtain ⟨e, r9⟩ := pe
  rw [h12] at h
  dsimp only at h
  rw [takeHex_append 12 r8 e r9 h12 rest]
  dsimp only
  simp only [Option.some.injEq, Prod.mk.injEq] at h ⊢
  obtain ⟨hv, hr⟩ := h
  subst hv
  subst hr
  exact ⟨rfl, rfl⟩

/-- A canonical uuid string parses exactly to itself. -/
theorem isCanonicalUuid_parse {u : String} (hu : isCanonicalUuidB u = true) :
    parseUuid u.data = some (u.data, []) := by
  unfold isCanonicalUuidB at hu
  cases hp : parseUuid u.data with
  | none => rw [hp] at hu; cases hu
  | some pr =>
    obtain ⟨v, r⟩ := pr
    rw [hp] at hu
    cases r with
    | cons x xs => simp at hu
    | nil =>
      have hv : u.data = v := by
        have := (parseUuid_sound hp).1
        rwa [List.append_nil] at this
      rw [hv]

/-- Hyphen-removal keeps a block of hex digits intact. -/
theorem filter_hex_block {l : List Char} (hl : ∀ x ∈ l, isHexDigitChar x = true) :
    l.filter (fun c => !(c = '-')) = l :=
  List.filter_eq_self.mpr fun x hx => by
    have hne := hex_ne_hyphen (hl x hx)
    simp [hne]

/-- Hyphen-removal drops a leading hyphen. -/
theorem filter_hyphen_cons (l : List Char) :
    ('-' :: l).filter (fun c => !(c = '-')) = l.filter (fun c => !(c = '-')) := by
  simp [List.filter_cons]

/-- Unfolding of the classifier once the keyword has matched. -/
theorem classifyL_some {cs rest : List Char} (h : matchKeyword keywordChars cs = some rest) :
    classifyL cs =
      match tryIdGroup (rest.dropWhile jsSpace) with
      | some (u, rem) =>
        if ((rem.dropWhile jsSpace).any isLineTerminator) = true then ⟨false, none, ""⟩
        else ⟨true, some (String.mk u), String.mk (jsTrim (rem.dropWhile jsSpace))⟩
      | none =>
        if ((rest.dropWhile jsSpace).any isLineTerminator) = true then ⟨false, none, ""⟩
        else ⟨true, none, String.mk (jsTrim (rest.dropWhile jsSpace))⟩ := by
  unfold classifyL
  rw [h]

/-- The id group fires exactly on a leading colon. -/
theorem tryIdGroup_colon (r : List Char) :
    tryIdGroup (':' :: r) = parseUuid (r.dropWhile jsSpace) := rfl

/-- Classification of a subject `<kw>:<uuid> <title>` for any spelling
`kw` of the keyword up to ASCII case: the uuid is captured verbatim and
the title is trimmed, provided the title contains no line terminator
(otherwise `(.*)$` cannot match). -/
theorem classify_uuid_subject (kw u t : String) (hkw : isKeywordCasedB kw = true)
    (hu : isCanonicalUuidB u = true)
    (ht : t.data.any isLineTerminator = false) :
    classify (kw ++ ":" ++ u ++ " " ++ t) = ⟨true, some u, jsTrimStr t⟩ := by
  have hkw' : kw.data.map asciiLower = keywordChars := by
    simpa [isKeywordCasedB] using hkw
  have hp := isCanonicalUuid_parse hu
  obtain ⟨-, a, b, c, d, e, hveq, ha8, hb4, hc4, hd4, he12, hha, hhb, hhc, hhd, hhe⟩ :=
    parseUuid_sound hp
  have hcs : (kw ++ ":" ++ u ++ " " ++ t).data
      = kw.data ++ (':' :: (u.data ++ (' ' :: t.data))) := by
    have hsp : (" " : String).data = [' '] := rfl
    have hco : (":" : String).data = [':'] := rfl
    simp [strData_append, hsp, hco, List.append_assoc]
  have hdw : (u.data ++ (' ' :: t.data)).dropWhile jsSpace = u.data ++ (' ' :: t.data) := by
    rw [hveq]
    cases a with
    | nil => simp at ha8
    | cons x a' =>
      have hx : isHexDigitChar x = true := hha x (List.mem_cons_self _ _)
      simp [List.cons_append, List.dropWhile_cons, hex_not_space hx]
  have hparse2 : parseUuid (u.data ++ (' ' :: t.data)) = some (u.data, ' ' :: t.data) := by
    simpa using parseUuid_append hp (' ' :: t.data)
  have hcol : jsSpace ':' = false := rfl
  have hspt : jsSpace ' ' = true := rfl
  unfold classify
  rw [hcs, classifyL_some (matchKeyword_of_cased hkw' _)]
  rw [List.dropWhile_cons]
  simp only [hcol, Bool.false_eq_true, if_false]
  rw [tryIdGroup_colon, hdw, hparse2]
  dsimp only
  rw [List.dropWhile_cons]
  simp only [hspt, if_true]
  rw [any_false_dropWhile ht]
  simp only [Bool.false_eq_true, if_false]
  rw [jsTrim_dropWhile, strMk_data]
  rfl

/-- Classification of a subject `<kw> <title>` for any spelling `kw`
of the keyword up to ASCII case, whose title does not begin with a
colon-plus-uuid group: tagged, no explicit id, title trimmed — again
provided the title contains no line terminator. -/
theorem classify_plain_subject (kw t : String) (hkw : isKeywordCasedB kw = true)
    (ht : t.data.any isLineTerminator = false)
    (hid : hasIdGroupB t = false) :
    classify (kw ++ " " ++ t) = ⟨true, none, jsTrimStr t⟩ := by
  have hkw' : kw.data.map asciiLower = keywordChars := by
    simpa [isKeywordCasedB] using hkw
  have hcs : (kw ++ " " ++ t).data = kw.data ++ (' ' :: t.data) := by
    have hsp : (" " : String).data = [' '] := rfl
    simp [strData_append, hsp, List.append_assoc]
  have hspt : jsSpace ' ' = true := rfl
  have hgroup : tryIdGroup ((' ' :: t.data).dropWhile jsSpace) = none := by
    rw [List.dropWhile_cons]
    simp only [hspt, if_true]
    unfold hasIdGroupB at hid
    cases ho : tryIdGroup (t.data.dropWhile jsSpace) with
    | none => rfl
    | some pr => rw [ho] at hid; simp at hid
  unfold classify
  rw [hcs, classifyL_some (matchKeyword_of_cased hkw' _), hgroup]
  dsimp only
  rw [List.dropWhile_cons]
  simp only [hspt, if_true]
  rw [any_false_dropWhile ht]
  simp only [Bool.false_eq_true, if_false]
  rw [jsTrim_dropWhile]
  rfl

/-- A subject that does not begin with the tag keyword never
classifies as tagged. -/
theorem classify_untagged (s : String) (h : startsWithKeywordB s = false) :
    (classify s).isChatterbox = false := by
  unfold startsWithKeywordB at h
  have hm : matchKeyword keywordChars s.data = none := by
    cases hm : matchKeyword keywordChars s.data with
    | none => rfl
    | some r => rw [hm] at h; simp at h
  unfold classify classifyL
  rw [hm]

/-! ## Claim C4 — the classifier round-trip -/

/-- C4 as stated fails on the code: the subject
`chatterbox a\nb` has the form `chatterbox <title>` without an
identifier, but since the regex `.` cannot match a line terminator and
`$` only matches at the end of the input, the anchored subject regex
fails to match at all and classification yields `isTagged = false`,
not the claimed `isTagged = true` with the title recovered. -/
theorem classifier_rejects_newline_title :
    hasIdGroupB "a\nb" = false ∧
    classify ("chatterbox " ++ "a\nb") ≠ ⟨true, none, "a\nb"⟩ ∧
    (classify ("chatterbox " ++ "a\nb")).isChatterbox = false := by decide

/-- C4 amended: (1) for every ASCII-case spelling `kw` of the tag
keyword, canonical uuid `u` and title `t` free of line terminators,
`<kw>:<u> <t>` classifies as tagged with explicit id `u` and the
trimmed `t` as title; (2) for every such `kw` and title `t` free of
line terminators that does not start (after whitespace) with a
colon-plus-uuid group, `<kw> <t>` classifies as tagged with no
explicit id and the trimmed `t` as title; (3) every subject that does
not start with the keyword (case-insensitively) classifies as
untagged. -/
theorem classifier_roundtrip_amended :
    (∀ kw u t : String, isKeywordCasedB kw = true → isCanonicalUuidB u = true →
      t.data.any isLineTerminator = false →
      classify (kw ++ ":" ++ u ++ " " ++ t) = ⟨true, some u, jsTrimStr t⟩) ∧
    (∀ kw t : String, isKeywordCasedB kw = true → t.data.any isLineTerminator = false →
      hasIdGroupB t = false →
      classify (kw ++ " " ++ t) = ⟨true, none, jsTrimStr t⟩) ∧
    (∀ s : String, startsWithKeywordB s = false → (classify s).isChatterbox = false) :=
  ⟨classify_uuid_subject, classify_plain_subject, classify_untagged⟩

/-- Witness for C4 (amended) at the spec's scenario inputs, with
case-variant keyword spellings. -/
theorem classifier_roundtrip_amended_witness :
    classify ("Chatterbox" ++ ":" ++ "11111111-2222-3333-4444-555555555555" ++ " "
        ++ "Design Review")
      = ⟨true, some "11111111-2222-3333-4444-555555555555", jsTrimStr "Design Review"⟩ ∧
    classify ("CHATTERBOX" ++ " " ++ "Design Review") = ⟨true, none, jsTrimStr "Design Review"⟩ ∧
    (classify "Re: hello").isChatterbox = false :=
  ⟨classifier_roundtrip_amended.1 "Chatterbox" "11111111-2222-3333-4444-555555555555"
      "Design Review" (by decide) (by decide) (by decide),
    classifier_roundtrip_amended.2.1 "CHATTERBOX" "Design Review" (by decide) (by decide)
      (by decide),
    classifier_roundtrip_amended.2.2 "Re: hello" (by decide)⟩

/-! ## Claim C10 — minted ids are not recoverable from the suggested
subject line -/

/-- C10: a minted conversation id is the 32 hex characters of the
generated uuid with the hyphens removed; and for every title, the
subject `chatterbox:<mintedId> <title>` — the very shape the
acknowledgment email suggests (`pollGmail.js:331`) — classifies with
`explicitConversationId = null`, because the id group only matches the
hyphenated canonical form. -/
theorem minted_id_not_recoverable (u t : String) (hu : isCanonicalUuidB u = true) :
    (mintConversationId u).length = 32 ∧
    (∀ x ∈ (mintConversationId u).data, isHexDigitChar x = true ∧ ¬ x = '-') ∧
    (classify ("chatterbox:" ++ mintConversationId u ++ " " ++ t)).conversationId = none := by
  have hp := isCanonicalUuid_parse hu
  obtain ⟨-, a, b, c, d, e, hveq, ha8, hb4, hc4, hd4, he12, hha, hhb, hhc, hhd, hhe⟩ :=
    parseUuid_sound hp
  have hmint : (mintConversationId u).data = a ++ (b ++ (c ++ (d ++ e))) := by
    show (u.data.filter (fun c => !(c = '-'))) = _
    rw [hveq]
    simp only [List.filter_append, filter_hyphen_cons, filter_hex_block hha,
      filter_hex_block hhb, filter_hex_block hhc, filter_hex_block hhd,
      filter_hex_block hhe, List.append_assoc]
  refine ⟨?_, ?_, ?_⟩
  · rw [strLength_data, hmint]
    simp [List.length_append, ha8, hb4, hc4, hd4, he12]
  · intro x hx
    rw [hmint] at hx
    simp only [List.mem_append] at hx
    have hhex : isHexDigitChar x = true := by
      rcases hx with h' | h' | h' | h' | h'
      · exact hha x h'
      · exact hhb x h'
      · exact hhc x h'
      · exact hhd x h'
      · exact hhe x h'
    exact ⟨hhex, hex_ne_hyphen hhex⟩
  · have hcs : ("chatterbox:" ++ mintConversationId u ++ " " ++ t).data
        = "chatterbox:".data ++ ((mintConversationId u).data ++ (' ' :: t.data)) := by
      have hsp : (" " : String).data = [' '] := rfl
      simp [strData_append, hsp, List.append_assoc]
    have hane : ∃ x a', a = x :: a' := by
      cases a with
      | nil => simp at ha8
      | cons x a' => exact ⟨x, a', rfl⟩
    obtain ⟨x, a', hae⟩ := hane
    have hx : isHexDigitChar x = true := hha x (by rw [hae]; exact List.mem_cons_self _ _)
    have hdw : ((mintConversationId u).data ++ (' ' :: t.data)).dropWhile jsSpace
        = (mintConversationId u).data ++ (' ' :: t.data) := by
      rw [hmint, hae]
      simp [List.cons_append, List.dropWhile_cons, hex_not_space hx]
    have hfail : parseUuid ((mintConversationId u).data ++ (' ' :: t.data)) = none := by
      rw [hmint]
      have hassoc : (a ++ (b ++ (c ++ (d ++ e)))) ++ (' ' :: t.data)
          = a ++ (b ++ (c ++ (d ++ (e ++ (' ' :: t.data))))) := by
        simp [List.append_assoc]
      rw [hassoc]
      have h8 : takeHex 8 (a ++ (b ++ (c ++ (d ++ (e ++ (' ' :: t.data))))))
          = some (a, b ++ (c ++ (d ++ (e ++ (' ' :: t.data))))) := by
        rw [← ha8]
        exact takeHex_exact a _ hha
      have hlitfail : takeLit '-' (b ++ (c ++ (d ++ (e ++ (' ' :: t.data))))) = none := by
        cases b with
        | nil => simp at hb4
        | cons y b' =>
          have hy : isHexDigitChar y = true := hhb y (List.mem_cons_self _ _)
          simp [List.cons_append, takeLit, hex_ne_hyphen hy]
      unfold parseUuid
      rw [h8]
      dsimp only
      rw [hlitfail]
    have hcol : jsSpace ':' = false := rfl
    unfold classify
    rw [hcs, classifyL_some (matchKeyword_chatterboxColon _)]
    rw [List.dropWhile_cons]
    simp only [hcol, Bool.false_eq_true, if_false]
    rw [tryIdGroup_colon, hdw, hfail]
    dsimp only
    split_ifs <;> rfl

/-- Witness for C10 at a concrete generated uuid and title. -/
theorem minted_id_not_recoverable_witness :
    (mintConversationId "11111111-2222-3333-4444-555555555555").length = 32 ∧
    (∀ x ∈ (mintConversationId "11111111-2222-3333-4444-555555555555").data,
      isHexDigitChar x = true ∧ ¬ x = '-') ∧
    (classify ("chatterbox:" ++ mintConversationId "11111111-2222-3333-4444-555555555555"
        ++ " " ++ "Project Update")).conversationId = none :=
  minted_id_not_recoverable "11111111-2222-3333-4444-555555555555" "Project Update"
    (by decide)

/-! ## Claim C5 — body-extraction order -/

/-- The last element of an option's singleton-or-empty list is the
option itself. -/
theorem getLast?_toList (o : Option String) : o.toList.getLast? = o := by
  cases o <;> rfl

/-- A direct body match is never the empty string (the source's
truthiness test on `part.body.data` filters it out). -/
theorem directBody_ne_empty {mimeType m : String} {body : Option PartBody} {d : String}
    (h : directBody mimeType m body = some d) : d ≠ "" := by
  unfold directBody at h
  split_ifs at h
  · cases body with
    | none => cases h
    | some b =>
      dsimp only at h
      cases hd : b.data with
      | none => rw [hd] at h; cases h
      | some d' =>
        rw [hd] at h
        dsimp only at h
        split_ifs at h with he
        cases h
        exact he

/-- Membership form of `directBody_ne_empty`. -/
theorem directBody_toList_ne_empty {mimeType m : String} {body : Option PartBody}
    {s : String} (hs : s ∈ (directBody mimeType m body).toList) : s ≠ "" := by
  cases hd : directBody mimeType m body with
  | none => rw [hd] at hs; simp at hs
  | some d =>
    rw [hd] at hs
    simp at hs
    subst hs
    exact directBody_ne_empty hd

/-- The truthy override of the source (`if (x) bodyContent = x`)
applied to the last candidate of a later run is taking the last
candidate of the concatenated runs — provided the later candidates are
never the empty string. -/
theorem overrideTruthy_getLast (l r : List String) (hr : ∀ s ∈ r, s ≠ "") :
    overrideTruthy r.getLast? l.getLast? = (l ++ r).getLast? := by
  cases hm : r.getLast? with
  | none =>
    have hre : r = [] := List.getLast?_eq_none_iff.mp hm
    subst hre
    simp [overrideTruthy]
  | some q =>
    have hq : q ≠ "" := hr q (List.mem_of_getLast?_eq_some hm)
    simp only [overrideTruthy]
    rw [if_neg hq, List.getLast?_append, hm]
    rfl

mutual
/-- Joint induction, part side: the walker's prompt for one part is
the last of its body candidates, and no candidate is empty. -/
theorem processPart_prompt_eq (fetchAtt : String → Option String) (mimeType : String) :
    (p : Part) →
      (processPart fetchAtt mimeType p).prompt
          = (bodyMatchesPart fetchAtt mimeType p).getLast? ∧
        ∀ s ∈ bodyMatchesPart fetchAtt mimeType p, s ≠ ""
  | .mk m fn body children => by
    have hc := processForest_prompt_eq fetchAtt mimeType children
    simp only [processPart, bodyMatchesPart]
    cases hatt : attachmentOf fetchAtt fn body with
    | fetchFailed =>
      dsimp only
      refine ⟨(getLast?_toList _).symm, ?_⟩
      intro s hs
      exact directBody_toList_ne_empty hs
    | noAttachment =>
      dsimp only
      constructor
      · have hov := overrideTruthy_getLast (directBody mimeType m body).toList
          (bodyMatchesForest fetchAtt mimeType children) hc.2
        rw [getLast?_toList] at hov
        rw [hc.1]
        exact hov
      · intro s hs
        rcases List.mem_append.mp hs with h' | h'
        · exact directBody_toList_ne_empty h'
        · exact hc.2 s h'
    | got f sz =>
      dsimp only
      constructor
      · have hov := overrideTruthy_getLast (directBody mimeType m body).toList
          (bodyMatchesForest fetchAtt mimeType children) hc.2
        rw [getLast?_toList] at hov
        rw [hc.1]
        exact hov
      · intro s hs
        rcases List.mem_append.mp hs with h' | h'
        · exact directBody_toList_ne_empty h'
        · exact hc.2 s h'

/-- Joint induction, forest side. -/
theorem processForest_prompt_eq (fetchAtt : String → Option String) (mimeType : String) :
    (ps : PartForest) →
      (processForest fetchAtt mimeType ps).prompt
          = (bodyMatchesForest fetchAtt mimeType ps).getLast? ∧
        ∀ s ∈ bodyMatchesForest fetchAtt mimeType ps, s ≠ ""
  | .nil => by
    simp [processForest, bodyMatchesForest]
  | .cons p rest => by
    have h1 := processPart_prompt_eq fetchAtt mimeType p
    have h2 := processForest_prompt_eq fetchAtt mimeType rest
    simp only [processForest, bodyMatchesForest]
    constructor
    · rw [h1.1, h2.1]
      exact overrideTruthy_getLast _ _ h2.2
    · intro s hs
      rcases List.mem_append.mp hs with h' | h'
      · exact h1.2 s h'
      · exact h2.2 s h'
end

/-- C5 as stated fails on the code: in a forest whose first (top-level)
part is a direct `text/plain` match with content "top" and whose second
part nests a `text/plain` part with content "deep", extraction returns
the nested "deep" — the deeper, later match overrides the shallower,
earlier one, so the shallowest match is not preferred. -/
theorem body_extraction_prefers_deep_late_match :
    (processForest (fun _ => none) "text/plain"
      (.cons (.mk "text/plain" none (some ⟨some "top", none⟩) .nil)
        (.cons (.mk "multipart/mixed" none none
          (.cons (.mk "text/plain" none (some ⟨some "deep", none⟩) .nil) .nil)) .nil))).prompt
      = some "deep" ∧ (some "deep" : Option String) ≠ some "top" := by decide

/-- C5 amended: body extraction returns the content of the **last**
part in source-traversal order (each part's own content before its
children's, siblings left to right, a part's subtree skipped when its
out-of-band attachment fetch failed) whose MIME type matches the
requested type and whose inline data is non-empty; in particular a
deeper match occurring later in the traversal overrides a shallower,
earlier one. -/
theorem body_extraction_last_match_wins (fetchAtt : String → Option String)
    (mimeType : String) (parts : PartForest) :
    (processForest fetchAtt mimeType parts).prompt
      = (bodyMatchesForest fetchAtt mimeType parts).getLast? :=
  (processForest_prompt_eq fetchAtt mimeType parts).1

end Chatterbox
